import Mathlib

/-!
# Verification of the lcapy core domain-expression type system

This file gives a shallow embedding of `lcapy/core.py`: the class
hierarchy of domain expressions (`Expr`, `cExpr`, `tExpr`, `sExpr`,
`fExpr`, `omegaExpr`, `Phasor`, `noiseExpr` and their quantity-role
subclasses), the assumption sets attached to every value, the
compatibility engine (`__compat_mul__`, `__compat_add__` and the
arithmetic operators built on them), substitution with its
conjugate-class map (`_subs1`), the Fourier shortcut for causal
s-domain values (`sExpr.fourier`), and the `Super` superposition
container with its `add` algorithm.  Symbolic payloads are modelled by
a small expression AST; simplification performed by the external
algebra engine (sympy) is out of scope of the core and is modelled
conservatively.
-/

namespace Lcapy

/-- The distinguished domain variables `t`, `s`, `f`, `omega`
(`tsym`, `ssym`, `fsym`, `omegasym` in core.py). -/
inductive Var where
  | t
  | s
  | f
  | omega
deriving DecidableEq, Repr

/-- Symbolic payload AST: the fragment of sympy expression trees that
the embedded core code inspects (`find` on domain symbols, comparison
with 0, substitution, sums and products built by the arithmetic
operators, `sqrt` built by `Super.add` for noise, the constants `j`
and `pi`). -/
inductive Sym where
  | const (q : ℚ)
  | symv (v : Var)
  | add (a b : Sym)
  | mul (a b : Sym)
  | div (a b : Sym)
  | neg (a : Sym)
  | sqrtS (a : Sym)
  | iunit
  | piC
deriving DecidableEq, Repr

namespace Sym

/-- `expr.find(vsym) != set()`: whether the payload contains a domain
variable. -/
def hasVar : Sym → Var → Bool
  | const _, _ => false
  | symv w, v => w == v
  | add a b, v => a.hasVar v || b.hasVar v
  | mul a b, v => a.hasVar v || b.hasVar v
  | div a b, v => a.hasVar v || b.hasVar v
  | neg a, v => a.hasVar v
  | sqrtS a, v => a.hasVar v
  | iunit, _ => false
  | piC, _ => false

/-- Substitution of a payload for a domain variable
(`sympy.Expr.subs` as invoked by `Expr._subs1`). -/
def subst : Sym → Var → Sym → Sym
  | const q, _, _ => const q
  | symv w, v, e => if w == v then e else symv w
  | add a b, v, e => add (a.subst v e) (b.subst v e)
  | mul a b, v, e => mul (a.subst v e) (b.subst v e)
  | div a b, v, e => div (a.subst v e) (b.subst v e)
  | neg a, v, e => neg (a.subst v e)
  | sqrtS a, v, e => sqrtS (a.subst v e)
  | iunit, _, _ => iunit
  | piC, _, _ => piC

/-- Modelled from the spec: the external algebra engine's complex
conjugation (`sym.conjugate`), used by `Expr.conjugate`.  The domain
symbols `t`, `f`, `omega` are declared real in the core's context, so
the engine maps them to themselves; `j` is negated; the structural
cases follow the engine's automatic distribution over sums, products
and square roots of the positive-valued payloads this model feeds it. -/
def conjO : Sym → Sym
  | const q => const q
  | symv v => symv v
  | add a b => add a.conjO b.conjO
  | mul a b => mul a.conjO b.conjO
  | div a b => div a.conjO b.conjO
  | neg a => neg a.conjO
  | sqrtS a => sqrtS a.conjO
  | iunit => neg iunit
  | piC => piC

/-- Modelled from the spec: the external algebra engine's `simplify`
(out of scope of the core; spec §1 treats it as an oracle).  Modelled
conservatively as the identity; equality of payloads is judged by the
denotation `nval` below. -/
def simplifyO (a : Sym) : Sym := a

/-- Denotation of a real-valued payload (the fragment relevant to
noise magnitudes, which are positive real spectra): rational constants
and the arithmetic operations, with `sqrt` interpreted by `Real.sqrt`.
Domain symbols and the imaginary unit do not occur in this fragment
and are sent to 0. -/
noncomputable def nval : Sym → ℝ
  | const q => (q : ℝ)
  | symv _ => 0
  | add a b => a.nval + b.nval
  | mul a b => a.nval * b.nval
  | div a b => a.nval / b.nval
  | neg a => -a.nval
  | sqrtS a => Real.sqrt a.nval
  | iunit => 0
  | piC => Real.pi

end Sym

/-- The expr-level assumption record (`dc`, `ac`, `causal`, `real`,
`positive`, `complex`, and the `omega` entry that `Phasor` stores).
`none` models a key that is absent from the Python assumptions
dictionary. -/
structure Assumptions where
  dc : Option Bool := none
  ac : Option Bool := none
  causal : Option Bool := none
  real : Option Bool := none
  positive : Option Bool := none
  cmplx : Option Bool := none
  omega : Option Sym := none
deriving DecidableEq, Repr

/-- The empty assumptions dictionary `{}`. -/
def Assumptions.empty : Assumptions := {}

/-- The concrete classes of core.py that participate in the
compatibility engine.  `sfwexpr` is the abstract single-frequency
base class `sfwExpr`; it is never instantiated but occurs in the
subclass chains. -/
inductive ClsTag where
  | expr
  | cexpr
  | texpr
  | sfwexpr
  | sexpr
  | fexpr
  | omegaexpr
  | phasorC
  | noiseexpr
  | clsVs | clsIs | clsZs | clsYs | clsHs
  | clsVt | clsIt | clsZt | clsYt | clsHt
  | clsVf | clsIf | clsZf | clsYf | clsHf
  | clsVomega | clsIomega | clsZomega | clsYomega | clsHomega
  | clsVconst | clsIconst
  | clsVphasor | clsIphasor
  | clsVn | clsIn
deriving DecidableEq, Repr

namespace ClsTag

/-- The direct base class of each class (`None` for `Expr`). -/
def parent : ClsTag → Option ClsTag
  | .expr => none
  | .cexpr => some .expr
  | .texpr => some .expr
  | .sfwexpr => some .expr
  | .sexpr => some .sfwexpr
  | .fexpr => some .sfwexpr
  | .omegaexpr => some .sfwexpr
  | .phasorC => some .expr
  | .noiseexpr => some .omegaexpr
  | .clsVs => some .sexpr
  | .clsIs => some .sexpr
  | .clsZs => some .sexpr
  | .clsYs => some .sexpr
  | .clsHs => some .sexpr
  | .clsVt => some .texpr
  | .clsIt => some .texpr
  | .clsZt => some .texpr
  | .clsYt => some .texpr
  | .clsHt => some .texpr
  | .clsVf => some .fexpr
  | .clsIf => some .fexpr
  | .clsZf => some .fexpr
  | .clsYf => some .fexpr
  | .clsHf => some .fexpr
  | .clsVomega => some .omegaexpr
  | .clsIomega => some .omegaexpr
  | .clsZomega => some .omegaexpr
  | .clsYomega => some .omegaexpr
  | .clsHomega => some .omegaexpr
  | .clsVconst => some .cexpr
  | .clsIconst => some .cexpr
  | .clsVphasor => some .phasorC
  | .clsIphasor => some .phasorC
  | .clsVn => some .noiseexpr
  | .clsIn => some .noiseexpr

/-- The chain of superclasses of a class, itself included, computed
with enough fuel for the deepest chain (`Vn → noiseExpr → omegaExpr →
sfwExpr → Expr`). -/
def superChainAux : Nat → ClsTag → List ClsTag
  | 0, c => [c]
  | fuel + 1, c =>
    match c.parent with
    | none => [c]
    | some p => c :: superChainAux fuel p

/-- Method-resolution chain of a class. -/
def superChain (c : ClsTag) : List ClsTag := superChainAux 8 c

/-- `isinstance`: `subB a b` holds when an instance of class `a` is an
instance of class `b`. -/
def subB (a b : ClsTag) : Bool := b ∈ a.superChain

end ClsTag

/-- A domain-expression value: concrete class, symbolic payload, and
its assumptions dictionary. -/
structure EVal where
  cls : ClsTag
  payload : Sym
  assum : Assumptions
deriving DecidableEq, Repr

/-- `Expr.__init__` assumption handling: a zero argument forces the
`causal` assumption (core.py lines 196-197). -/
def exprInit (p : Sym) (a : Assumptions) : Assumptions :=
  if p = Sym.const 0 then { a with causal := some true } else a

/-- Construction of a value of a given class from a raw symbolic
payload and an explicit assumptions dictionary: the `__init__` chain
of each class family.  `cExpr` checks that no domain variable occurs
and defaults `real`/`positive`; `tExpr` asserts `real` and rejects
payloads containing `s`; `sExpr` rejects payloads containing `t`;
`fExpr` and `omegaExpr` assert `real` and reject payloads containing
`s` or `t`; `Phasor` asserts `positive`; the noise classes also
assert `positive`.  Errors model the `ValueError` raised at
construction time. -/
def construct (c : ClsTag) (p : Sym) (a0 : Assumptions) : Except String EVal :=
  if c.subB .cexpr then
    -- cExpr.__init__: symbols_find check happens before the base init.
    if p.hasVar .s || p.hasVar .omega || p.hasVar .t || p.hasVar .f then
      .error "constant expression cannot depend on a domain variable"
    else
      let a1 := { a0 with real := some true,
                          positive := some (a0.positive.getD true) }
      .ok ⟨c, p, exprInit p a1⟩
  else if c.subB .texpr then
    let a1 := { a0 with real := some true }
    if p.hasVar .s then
      .error "t-domain expression cannot depend on s"
    else
      .ok ⟨c, p, exprInit p a1⟩
  else if c.subB .sexpr then
    if p.hasVar .t then
      .error "s-domain expression cannot depend on t"
    else
      .ok ⟨c, p, exprInit p a0⟩
  else if c.subB .noiseexpr then
    -- Vn/In set positive, then omegaExpr sets real and checks s, t.
    let a1 := { a0 with real := some true, positive := some true }
    if p.hasVar .s then
      .error "omega-domain expression cannot depend on s"
    else if p.hasVar .t then
      .error "omega-domain expression cannot depend on t"
    else
      .ok ⟨c, p, exprInit p a1⟩
  else if c.subB .fexpr || c.subB .omegaexpr then
    let a1 := { a0 with real := some true }
    if p.hasVar .s then
      .error "f/omega-domain expression cannot depend on s"
    else if p.hasVar .t then
      .error "f/omega-domain expression cannot depend on t"
    else
      .ok ⟨c, p, exprInit p a1⟩
  else if c.subB .phasorC then
    let a1 := { a0 with positive := some true }
    .ok ⟨c, p, exprInit p a1⟩
  else
    .ok ⟨c, p, exprInit p a0⟩

/-- `cls(x)` applied to an existing value `x` with no explicit
assumptions.  `Expr.__init__` adopts `x`'s assumptions only when the
incoming dictionary is still empty, which is the case exactly for the
s-domain family and the base class (every other family writes `real`
or `positive` into the dictionary before calling the base init). -/
def convertVal (c : ClsTag) (x : EVal) : Except String EVal :=
  if c.subB .sexpr || c = .expr then construct c x.payload x.assum
  else construct c x.payload {}

/-- `is_causal`: the `causal` assumption is present and `True`
(`infer_assumptions` on an s-domain value writes `None`, which
compares unequal to `True`). -/
def isCausalE (e : EVal) : Bool := e.assum.causal == some true

/-- `is_dc`. -/
def isDcE (e : EVal) : Bool := e.assum.dc == some true

/-- `is_ac`. -/
def isAcE (e : EVal) : Bool := e.assum.ac == some true

/-- `Phasor.omega`: the `omega` assumption if present, else the global
angular-frequency symbol. -/
def omegaOf (e : EVal) : Sym := e.assum.omega.getD (Sym.symv .omega)

/-- The assumptions dictionary `{'causal': True}`. -/
def causalOnly : Assumptions := { causal := some true }

/-- The assumptions dictionary `{'ac': True}`. -/
def acOnly : Assumptions := { ac := some true }

/-- `Expr.__compat_mul__` (core.py lines 352-409): decide the result
class, the coerced operands and the merged assumptions for `*`, `/`
and `**`, or fail with the incompatibility `ValueError`. -/
def exprCompatMul (a x : EVal) :
    Except String (ClsTag × EVal × EVal × Assumptions) := do
  let cls := a.cls
  let xcls := x.cls
  let assum :=
    if cls.subB .sexpr && xcls.subB .sexpr then
      if isCausalE a || isCausalE x then causalOnly
      else if isDcE a && isDcE x then a.assum
      else if isAcE a && isAcE x then a.assum
      else if isAcE a && isDcE x then acOnly
      else if isDcE a && isAcE x then acOnly
      else Assumptions.empty
    else Assumptions.empty
  if cls = xcls then
    let x' ← convertVal cls x
    return (cls, a, x', assum)
  -- Allow omega * t but treat as t expression.
  else if cls.subB .omegaexpr && xcls.subB .texpr then
    return (xcls, a, x, assum)
  else if cls.subB .texpr && xcls.subB .omegaexpr then
    return (cls, a, x, assum)
  else if xcls = .expr || xcls = .cexpr then
    let x' ← convertVal cls x
    return (cls, a, x', assum)
  else if cls = .expr || cls = .cexpr then
    return (xcls, a, x, assum)
  else if xcls.subB cls then
    let x' ← convertVal cls x
    return (xcls, a, x', assum)
  else if cls.subB xcls then
    let x' ← convertVal cls x
    return (cls, a, x', assum)
  else if cls.subB .texpr && xcls.subB .texpr then
    let x' ← convertVal cls x
    return (cls, a, x', assum)
  else if cls.subB .sexpr && xcls.subB .sexpr then
    let x' ← convertVal cls x
    return (cls, a, x', assum)
  else if cls.subB .omegaexpr && xcls.subB .omegaexpr then
    let x' ← convertVal cls x
    return (cls, a, x', assum)
  else
    .error "Cannot combine operands for mul/div"

/-- `Phasor.__compat_mul__` (core.py lines 1550-1571). -/
def phasorCompatMul (a x : EVal) :
    Except String (ClsTag × EVal × EVal × Assumptions) :=
  if x.cls.subB .omegaexpr then
    .ok (a.cls, a, x, a.assum)
  else if ¬ x.cls.subB .phasorC then
    .error "Incompatible arguments for mul/div"
  else if omegaOf a ≠ omegaOf x then
    .error "Cannot combine phasors of different angular frequency"
  else
    .ok (a.cls, a, x, a.assum)

/-- Multiplicative compatibility dispatch: `Phasor` overrides
`__compat_mul__`, every other class uses the `Expr` version. -/
def compatMul (a x : EVal) :
    Except String (ClsTag × EVal × EVal × Assumptions) :=
  if a.cls.subB .phasorC then phasorCompatMul a x else exprCompatMul a x

/-- `Expr.__compat_add__` (core.py lines 411-445): decide the result
class, coerced operands and merged assumptions for `+`, `-`, the
comparisons and `|`, or fail with the incompatibility `ValueError`.
Assumptions are shared only when the two s-domain operands carry
identical assumption dictionaries. -/
def exprCompatAdd (a x : EVal) :
    Except String (ClsTag × EVal × EVal × Assumptions) := do
  let cls := a.cls
  let xcls := x.cls
  let assum :=
    if cls.subB .sexpr && xcls.subB .sexpr && a.assum = x.assum then
      a.assum
    else Assumptions.empty
  if cls = xcls then
    return (cls, a, x, assum)
  -- Handle Vs + sExpr etc.
  else if cls.subB xcls then
    return (cls, a, x, assum)
  -- Handle sExpr + Vs etc.
  else if xcls.subB cls then
    let x' ← convertVal cls x
    return (xcls, a, x', assum)
  else if xcls = .expr || xcls = .cexpr then
    return (cls, a, x, assum)
  else if cls = .expr || cls = .cexpr then
    let a' ← convertVal cls a
    return (xcls, a', x, assum)
  else
    .error "Cannot combine operands for add/sub"

/-- `Phasor.__compat_add__` (core.py lines 1530-1548): any `Phasor`
may be added to any other `Phasor` of equal angular frequency; the
merged assumptions dictionary is empty. -/
def phasorCompatAdd (a x : EVal) :
    Except String (ClsTag × EVal × EVal × Assumptions) :=
  if ¬ x.cls.subB .phasorC then
    .error "Incompatible arguments for add/sub"
  else if omegaOf a ≠ omegaOf x then
    .error "Cannot combine phasors of different angular frequency"
  else
    .ok (a.cls, a, x, Assumptions.empty)

/-- Additive compatibility dispatch: `Phasor` overrides
`__compat_add__`, every other class uses the `Expr` version. -/
def compatAdd (a x : EVal) :
    Except String (ClsTag × EVal × EVal × Assumptions) :=
  if a.cls.subB .phasorC then phasorCompatAdd a x else exprCompatAdd a x

/-- `Expr.__add__`: additive compatibility resolution, then
construction of the result class from the summed payloads with the
merged assumptions. -/
def addE (a x : EVal) : Except String EVal := do
  let (cls, a', x', assum) ← compatAdd a x
  construct cls (Sym.add a'.payload x'.payload) assum

/-- `Expr.__sub__`. -/
def subE (a x : EVal) : Except String EVal := do
  let (cls, a', x', assum) ← compatAdd a x
  construct cls (Sym.add a'.payload (Sym.neg x'.payload)) assum

/-- `Expr.__mul__`. -/
def mulE (a x : EVal) : Except String EVal := do
  let (cls, a', x', assum) ← compatMul a x
  construct cls (Sym.mul a'.payload x'.payload) assum

/-- `Expr.__truediv__`. -/
def divE (a x : EVal) : Except String EVal := do
  let (cls, a', x', assum) ← compatMul a x
  construct cls (Sym.div a'.payload x'.payload) assum

/-- The conjugate-class lookup table of `Expr._subs1` (core.py lines
922-941), keyed by the pair (class of `self`, class of the
substituted value): substituting an `omegaExpr` or `fExpr` value into
a typed s/f/omega-domain value retargets the class while preserving
the quantity role. -/
def classMap : ClsTag → ClsTag → Option ClsTag
  | .clsHs, .omegaexpr => some .clsHomega
  | .clsIs, .omegaexpr => some .clsIomega
  | .clsVs, .omegaexpr => some .clsVomega
  | .clsYs, .omegaexpr => some .clsYomega
  | .clsZs, .omegaexpr => some .clsZomega
  | .clsHs, .fexpr => some .clsHf
  | .clsIs, .fexpr => some .clsIf
  | .clsVs, .fexpr => some .clsVf
  | .clsYs, .fexpr => some .clsYf
  | .clsZs, .fexpr => some .clsZf
  | .clsHf, .omegaexpr => some .clsHomega
  | .clsIf, .omegaexpr => some .clsIomega
  | .clsVf, .omegaexpr => some .clsVomega
  | .clsYf, .omegaexpr => some .clsYomega
  | .clsZf, .omegaexpr => some .clsZomega
  | .clsHomega, .fexpr => some .clsHf
  | .clsIomega, .fexpr => some .clsIf
  | .clsVomega, .fexpr => some .clsVf
  | .clsYomega, .fexpr => some .clsYf
  | .clsZomega, .fexpr => some .clsZf
  | _, _ => none

/-- `Expr._subs1` (core.py lines 908-963) for the case where the new
value is a domain expression: the result class is the class of the
new value unless the conjugate-class table overrides it, and the
payload is substituted by the algebra engine.  The substituted symbol
is one of the context's domain variables. -/
def subs1 (a : EVal) (old : Var) (newE : EVal) : Except String EVal :=
  let cls := (classMap a.cls newE.cls).getD newE.cls
  construct cls (a.payload.subst old newE.payload) {}

/-- The payload of `j * 2 * pi * f` as assembled by
`sExpr.fourier` through `fExpr.__rmul__` (the sympy product
`j * 2 * pi` multiplied onto the Fourier variable). -/
def jw2pifSym : Sym :=
  Sym.mul (Sym.symv .f) (Sym.mul (Sym.mul Sym.iunit (Sym.const 2)) Sym.piC)

/-- The `fExpr` value `j * 2 * pi * f` (class `fExpr` exactly, with
the `real` assumption set by `fExpr.__init__`). -/
def jw2pifVal : EVal := ⟨.fexpr, jw2pifSym, { real := some true }⟩

/-- Modelled from the spec: the non-causal branch of `sExpr.fourier`
re-derives the transform through `self.time().fourier()`, i.e. the
external algebra engine's inverse-Laplace and Fourier integrals
(`lcapy.laplace` and `lcapy.fourier` are not part of the core under
verification; spec §4.2 delegates them to the algebra engine).  The
branch is recorded as a delegated operation; the causal shortcut is
the code path settled here. -/
def timeFourierDelegate (_a : EVal) : Except String EVal :=
  .error "delegated: inverse Laplace then Fourier integral"

/-- `sExpr.fourier` (core.py lines 1195-1201): a causal s-domain
value is transformed by substituting `s = j 2 pi f`; otherwise the
transform is re-derived through the time domain. -/
def sExprFourier (a : EVal) : Except String EVal :=
  if isCausalE a then subs1 a .s jw2pifVal
  else timeFourierDelegate a

/-- Superposition keys: `'dc'`, `'s'`, `'n'`, the literal string
`'ac'` (returned by the `transform_domains` scan in `Super._kind`,
reachable only for a bare `Vphasor` that the earlier `Phasor` test
has not already claimed), or an angular-frequency expression (one key
per distinct phasor frequency). -/
inductive SKey where
  | dc
  | sK
  | nK
  | acLit
  | acFreq (w : Sym)
deriving DecidableEq, Repr

/-- A `Super` container: an insertion-ordered mapping from component
kind to value, as the Python dict subclass. -/
abbrev SuperA := List (SKey × EVal)

/-- Dictionary lookup. -/
def lookupK (S : SuperA) (k : SKey) : Option EVal :=
  (S.find? (fun kv => kv.1 == k)).map (fun kv => kv.2)

/-- Dictionary update of an existing key (position preserved). -/
def updateK (S : SuperA) (k : SKey) (v : EVal) : SuperA :=
  S.map (fun kv => if kv.1 == k then (k, v) else kv)

/-- Dictionary insertion of a fresh key (appended, as Python dicts
preserve insertion order). -/
def insertK (S : SuperA) (k : SKey) (v : EVal) : SuperA :=
  S ++ [(k, v)]

/-- `Super._kind` for a voltage superposition (`Vsuper`): a `Phasor`
is keyed by its angular frequency; otherwise the
`transform_domains = {'s': Vs, 'ac': Vphasor, 'dc': Vconst, 'n': Vn}`
table is scanned by `isinstance`. -/
def kindOfV (v : EVal) : Option SKey :=
  if v.cls.subB .phasorC then some (.acFreq (omegaOf v))
  else if v.cls.subB .clsVs then some .sK
  else if v.cls.subB .clsVphasor then some .acLit
  else if v.cls.subB .clsVconst then some .dc
  else if v.cls.subB .clsVn then some .nK
  else none

/-- `Vsuper.type_map = {cExpr: Vconst, sExpr: Vs, noiseExpr: Vn,
omegaExpr: Vphasor}`. -/
def typeMapV : List (ClsTag × ClsTag) :=
  [(.cexpr, .clsVconst), (.sexpr, .clsVs),
   (.noiseexpr, .clsVn), (.omegaexpr, .clsVphasor)]

/-- The `type_map` coercion step of `Super.add`: an exact class match
converts directly; otherwise the first `isinstance` match converts;
otherwise the value is left unchanged (and classification fails). -/
def coerceV (v : EVal) : Except String EVal :=
  match typeMapV.find? (fun kv => kv.1 == v.cls) with
  | some kv => convertVal kv.2 v
  | none =>
    match typeMapV.find? (fun kv => v.cls.subB kv.1) with
    | some kv => convertVal kv.2 v
    | none => .ok v

/-- `value * value.conjugate` followed by the delegated `.simplify()`
(which rewraps in the same class with the same assumptions), as in
the noise branch of `Super.add`. -/
def noiseSquared (v : EVal) : Except String EVal := do
  let cv ← construct v.cls (Sym.conjO v.payload) {}
  let prod ← mulE v cv
  construct prod.cls (Sym.simplifyO prod.payload) prod.assum

/-- The lcapy `sqrt` function (`_funcwrap(sym.sqrt, ...)`): applies
the engine's square root and rewraps in the value's class with no
explicit assumptions. -/
def sqrtWrap (v : EVal) : Except String EVal :=
  construct v.cls (Sym.sqrtS v.payload) {}

/-- `Super.add` for a voltage superposition (core.py lines
2553-2598), for an operand that is already a domain-expression value:
an exact zero is a no-op; a time-domain value is decomposed (the
decomposition algorithm is verified separately on the term-level
model below, so the class-level model records that branch as a
delegated operation); otherwise the value is classified by
`_kind`, coerced through `type_map` if necessary, and combined into
the entry of its kind: on a power basis for noise, by direct
addition for every other kind. -/
def superAddV (S : SuperA) (v : EVal) : Except String SuperA :=
  if v.payload = Sym.const 0 then .ok S
  else if v.cls.subB .texpr then
    .error "delegated: time-domain decomposition (see term-level model)"
  else do
    let (v, k?) ←
      match kindOfV v with
      | some k => pure (v, some k)
      | none => do
        let v' ← coerceV v
        pure (v', kindOfV v')
    match k? with
    | none => .error "Cannot handle value"
    | some k =>
      if k = SKey.nK then do
        let vsq ← noiseSquared v
        match lookupK S k with
        | none => do
          let w ← sqrtWrap vsq
          .ok (insertK S k w)
        | some old => do
          let osq ← noiseSquared old
          let ssum ← addE osq vsq
          let ssum' ← construct ssum.cls (Sym.simplifyO ssum.payload) ssum.assum
          let w ← sqrtWrap ssum'
          .ok (updateK S k w)
      else
        match lookupK S k with
        | none => .ok (insertK S k v)
        | some old => do
          let w ← addE old v
          .ok (updateK S k w)

/-!
## Term-level model of the superposition decomposition

`Super._decompose` (core.py lines 2505-2527) manipulates the additive
terms of a time-domain payload: it extracts the constant coefficient
(`expr.coeff(tsym, 0)`), classifies each remaining ordered term as a
single-frequency sinusoid (the `is_ac` structural test of
`lcapy.acdc`, which is not part of the sources under `src/`) and
converts it to a phasor (`tExpr.phasor` via `ACChecker`, also from
`lcapy.acdc`), and Laplace-transforms the residue
(`lcapy.laplace.laplace_transform`, also external).  This section
models the payload as a list of normalized additive terms and the
external transforms on the shapes the decomposition handles, faithful
to the spec's description of those collaborators (§4.2, §4.3), and
verifies the decomposition/recomposition round trip on them.
-/

/-- A normalized additive term of a time-domain payload:
a constant, a single-frequency sinusoid `a cos(w t) + b sin(w t)`
(the rectangular form of `A cos(w t + phi)`), a causal transient
`c exp(-al t) Heaviside(t)`, or a two-sided exponential
`c exp(-al t)` (produced by a non-causal inverse Laplace transform,
which is defined for `t >= 0` and extrapolated). -/
inductive TTerm where
  | constT (c : ℚ)
  | sinu (a b : ℚ) (w : ℚ)
  | trans (c al : ℚ)
  | expT (c al : ℚ)
deriving DecidableEq, Repr

/-- Pointwise denotation of a term as a real-valued time signal
(`Heaviside(0) = 1`, as in `Expr.evaluate`). -/
noncomputable def TTerm.teval : TTerm → ℝ → ℝ
  | .constT c, _ => (c : ℝ)
  | .sinu a b w, x => (a : ℝ) * Real.cos (w * x) + (b : ℝ) * Real.sin (w * x)
  | .trans c al, x => if 0 ≤ x then (c : ℝ) * Real.exp (-al * x) else 0
  | .expT c al, x => (c : ℝ) * Real.exp (-al * x)

/-- Denotation of a sum of terms. -/
noncomputable def sigEval (l : List TTerm) (x : ℝ) : ℝ :=
  (l.map (fun u => u.teval x)).sum

/-- `expr.coeff(tsym, 0)`: the additive coefficient free of the time
variable, i.e. the sum of the constant terms. -/
def dcCoeff (l : List TTerm) : ℚ :=
  (l.filterMap (fun u => match u with | .constT c => some c | _ => none)).sum

/-- Whether a term is a constant (removed by `value -= dc`). -/
def isConstTerm : TTerm → Bool
  | .constT _ => true
  | _ => false

/-- Modelled from the spec: the `is_ac` structural test of
`lcapy.acdc` (not under `src/`): a term is ac when it is a
single-frequency sinusoid of nonzero angular frequency (§4.2
"verified single-frequency sinusoidal"). -/
def isACTerm : TTerm → Bool
  | .sinu _ _ w => w != 0
  | _ => false

/-- The superposition component kinds of the term model:
`'dc'`, `'s'`, or one angular frequency per phasor. -/
inductive KeyT where
  | dc
  | sK
  | acK (w : ℚ)
deriving DecidableEq, Repr

/-- A stored component: a constant (`Vconst`), a phasor in
rectangular form (its time reconstruction is
`real cos(w t) + imag sin(w t)`, `Phasor.time`, core.py line 1584),
or an s-domain residue represented by the inverse-transform data of a
sum of simple poles, with the assumptions inferred when it was built
(`tExpr.laplace` attaches `causal`). -/
inductive CompT where
  | cdc (c : ℚ)
  | cph (a b : ℚ) (w : ℚ)
  | csd (l : List (ℚ × ℚ)) (causal : Bool)
deriving DecidableEq, Repr

/-- The `value == 0` test of `Super.add` on a stored component. -/
def CompT.isZero : CompT → Bool
  | .cdc c => c == 0
  | .cph a b _ => a == 0 && b == 0
  | .csd l _ => l.isEmpty

/-- `Super._kind` on the term model: constants under `'dc'`, phasors
under their angular frequency, the transformed residue under `'s'`. -/
def keyOfT : CompT → KeyT
  | .cdc _ => .dc
  | .cph _ _ w => .acK w
  | .csd _ _ => .sK

/-- The `self[kind] += value` merge of two same-kind components:
constants and s-domain residues add their payloads; phasors of equal
frequency add as complex numbers (vector sum).  The merged residue is
causal when the assumption dictionaries agree (`__compat_add__`). -/
def combineT : CompT → CompT → CompT
  | .cdc c1, .cdc c2 => .cdc (c1 + c2)
  | .cph a1 b1 w, .cph a2 b2 _ => .cph (a1 + a2) (b1 + b2) w
  | .csd l1 c1, .csd l2 c2 => .csd (l1 ++ l2) (c1 && c2)
  | u, _ => u

/-- The term-level superposition container. -/
abbrev SuperT := List (KeyT × CompT)

/-- Dictionary lookup. -/
def lookupT (S : SuperT) (k : KeyT) : Option CompT :=
  (S.find? (fun kv => kv.1 == k)).map (fun kv => kv.2)

/-- Dictionary update of an existing key. -/
def updateT (S : SuperT) (k : KeyT) (v : CompT) : SuperT :=
  S.map (fun kv => if kv.1 == k then (k, v) else kv)

/-- `Super.add` on the term model: an exact zero is a no-op; a new
kind is appended; an existing kind is merged. -/
def addT (S : SuperT) (v : CompT) : SuperT :=
  if v.isZero then S
  else
    match lookupT S (keyOfT v) with
    | none => S ++ [(keyOfT v, v)]
    | some old => updateT S (keyOfT v) (combineT old v)

/-- Modelled from the spec: `ACChecker` of `lcapy.acdc` (not under
`src/`) extracts amplitude, phase and angular frequency from a
verified sinusoid; in rectangular form the phasor of
`a cos(w t) + b sin(w t)` is `a + j b` at frequency `w`, so that
`Phasor.time` (`real cos + imag sin`) reconstructs it exactly. -/
def toPhasor : TTerm → CompT
  | .sinu a b w => .cph a b w
  | _ => .cdc 0

/-- Modelled from the spec: the one-sided Laplace transform of
`lcapy.laplace` (not under `src/`) on a sum of causal exponential
transients, recorded by its partial-fraction data (one `(c, al)` pair
per pole, `c / (s + al)`). -/
def laplaceT (l : List TTerm) : List (ℚ × ℚ) :=
  l.filterMap (fun u => match u with | .trans c al => some (c, al) | _ => none)

/-- Modelled from the spec: the `is_causal` structural inference of
`lcapy.acdc` (not under `src/`) performed by
`tExpr.infer_assumptions` before the transform: a sum of
Heaviside-gated transients is causal. -/
def isCausalSig (l : List TTerm) : Bool :=
  l.all (fun u => match u with | .trans _ _ => true | _ => false)

/-- `Super._decompose` (core.py lines 2505-2527) on the term model:
extract the constant coefficient and add it as a dc component when
nonzero; remove it; if nothing remains, stop; add each ac term as a
phasor keyed by its frequency; remove them; if nothing remains, stop;
Laplace-transform the residue with its inferred assumptions and add
it under `'s'`. -/
def decomposeT (S : SuperT) (x : List TTerm) : SuperT :=
  let dc := dcCoeff x
  let S1 := if dc ≠ 0 then addT S (.cdc dc) else S
  let x1 := x.filter (fun u => ¬ isConstTerm u)
  if x1 = [] then S1
  else
    let S2 := (x1.filter isACTerm).foldl (fun s u => addT s (toPhasor u)) S1
    let x2 := x1.filter (fun u => ¬ isACTerm u)
    if x2 = [] then S2
    else addT S2 (.csd (laplaceT x2) (isCausalSig x2))

/-- The time reconstruction of one stored component: `Vconst.time`
wraps the constant; `Phasor.time` is `real cos(w t) + imag sin(w t)`;
`sExpr.inverse_laplace` multiplies by the unit step when the stored
assumptions say `causal` and otherwise returns the two-sided
extrapolation. -/
def CompT.timeOf : CompT → List TTerm
  | .cdc c => [.constT c]
  | .cph a b w => [.sinu a b w]
  | .csd l causal =>
    if causal then l.map (fun p => .trans p.1 p.2)
    else l.map (fun p => .expT p.1 p.2)

/-- `Super.time` (core.py lines 2616-2626): the sum of the time
reconstructions of every stored component. -/
def timeT (S : SuperT) : List TTerm :=
  (S.map (fun kv => kv.2.timeOf)).flatten

/-- The spec's conjugate-class requirement for the Fourier transform
of an s-domain value, stated from the spec's words: "the class
appropriate to the pairing of target domain × preserved Quantity
Role" — an s-domain voltage becomes an f-domain voltage, and so on;
a role-less s-domain value becomes the generic f-domain class.  To be
compared with what `sExpr.fourier`/`_subs1` actually produce. -/
def specFourierConjugate : ClsTag → ClsTag
  | .clsVs => .clsVf
  | .clsIs => .clsIf
  | .clsZs => .clsZf
  | .clsYs => .clsYf
  | .clsHs => .clsHf
  | _ => .fexpr

end Lcapy

namespace Lcapy

/-! ## Helper lemmas -/

/-- Substituting a payload free of `v` for the variable `v` leaves no
occurrence of `v`. -/
theorem subst_hasVar_self (p e : Sym) (v : Var) (he : e.hasVar v = false) :
    (p.subst v e).hasVar v = false := by
  induction p with
  | const q => simp [Sym.subst, Sym.hasVar]
  | symv w =>
    by_cases h : w = v
    · simp [Sym.subst, Sym.hasVar, h, he]
    · simp [Sym.subst, Sym.hasVar, h]
  | add a b iha ihb => simp [Sym.subst, Sym.hasVar, iha, ihb]
  | mul a b iha ihb => simp [Sym.subst, Sym.hasVar, iha, ihb]
  | div a b iha ihb => simp [Sym.subst, Sym.hasVar, iha, ihb]
  | neg a iha => simp [Sym.subst, Sym.hasVar, iha]
  | sqrtS a iha => simp [Sym.subst, Sym.hasVar, iha]
  | iunit => simp [Sym.subst, Sym.hasVar]
  | piC => simp [Sym.subst, Sym.hasVar]

/-- Substitution for `v` introduces no occurrence of a different
variable `w` absent from both the payload and the substituted
value. -/
theorem subst_hasVar_other (p e : Sym) (v w : Var)
    (hp : p.hasVar w = false) (he : e.hasVar w = false) :
    (p.subst v e).hasVar w = false := by
  induction p with
  | const q => simp [Sym.subst, Sym.hasVar]
  | symv u =>
    by_cases h : u = v
    · simp [Sym.subst, Sym.hasVar, h, he]
    · simpa [Sym.subst, Sym.hasVar, h] using hp
  | add a b iha ihb =>
    simp only [Sym.hasVar, Bool.or_eq_false_iff] at hp
    simp [Sym.subst, Sym.hasVar, iha hp.1, ihb hp.2]
  | mul a b iha ihb =>
    simp only [Sym.hasVar, Bool.or_eq_false_iff] at hp
    simp [Sym.subst, Sym.hasVar, iha hp.1, ihb hp.2]
  | div a b iha ihb =>
    simp only [Sym.hasVar, Bool.or_eq_false_iff] at hp
    simp [Sym.subst, Sym.hasVar, iha hp.1, ihb hp.2]
  | neg a iha =>
    simp only [Sym.hasVar] at hp
    simp [Sym.subst, Sym.hasVar, iha hp]
  | sqrtS a iha =>
    simp only [Sym.hasVar] at hp
    simp [Sym.subst, Sym.hasVar, iha hp]
  | iunit => simp [Sym.subst, Sym.hasVar]
  | piC => simp [Sym.subst, Sym.hasVar]

/-! ## C8: s-domain construction rejects the time variable -/

/-- C8: constructing any s-domain expression (`sExpr` or one of its
subclasses) whose payload contains the time variable `t` fails with a
domain-violation error at construction time; no value is produced. -/
theorem c8_sdomain_rejects_time_variable (c : ClsTag) (p : Sym) (a : Assumptions)
    (hc : c ∈ [ClsTag.sexpr, .clsVs, .clsIs, .clsZs, .clsYs, .clsHs])
    (hp : p.hasVar .t = true) :
    (construct c p a).toOption = none := by
  fin_cases hc <;>
    simp [construct, hp, ClsTag.subB, ClsTag.superChain, ClsTag.superChainAux,
      ClsTag.parent, Except.toOption]

/-- C8 witness: `Vs(t)` fails to construct. -/
theorem c8_sdomain_rejects_time_variable_witness :
    (construct ClsTag.clsVs (Sym.symv .t) {}).toOption = none :=
  c8_sdomain_rejects_time_variable ClsTag.clsVs (Sym.symv .t) {}
    (by decide) (by decide)

/-! ## C9: adding an exact zero to a superposition is a no-op -/

/-- C9: `Super.add` with a value equal to an exact zero leaves the
container unchanged: no key is added, no stored component is
modified, and no error is raised. -/
theorem c9_add_zero_is_noop (S : SuperA) (v : EVal)
    (h : v.payload = Sym.const 0) :
    superAddV S v = .ok S := by
  simp [superAddV, h]

/-- C9 witness: adding `Vt(0)` to a nonempty superposition returns it
unchanged and without error. -/
theorem c9_add_zero_is_noop_witness :
    superAddV [(SKey.dc, ⟨ClsTag.clsVconst, Sym.const 5,
        { real := some true, positive := some true }⟩)]
      ⟨ClsTag.clsVt, Sym.const 0, { real := some true, causal := some true }⟩
      = .ok [(SKey.dc, ⟨ClsTag.clsVconst, Sym.const 5,
        { real := some true, positive := some true }⟩)] :=
  c9_add_zero_is_noop _ _ rfl

/-! ## C10: a zero payload forces the causal assumption -/

/-- C10: every domain expression constructed from the literal value 0
has its `causal` assumption forced to `True`, for every concrete
class and regardless of the caller-supplied assumptions, so
`is_causal` holds for every zero-valued expression. -/
theorem c10_zero_forces_causal (c : ClsTag) (a : Assumptions) :
    (construct c (Sym.const 0) a).toOption.map isCausalE = some true := by
  cases c <;>
    simp [construct, exprInit, isCausalE, ClsTag.subB, ClsTag.superChain,
      ClsTag.superChainAux, ClsTag.parent, Sym.hasVar, Except.toOption]

/-! ## C1: no role promotion in multiplication and division -/

/-- C1 counterexample: in the Laplace domain, `Vs * Ys` yields an
`Vs`-classed (voltage) value, not a current; `Vs / Vs` yields a
`Vs`-classed value, not a transfer function; and in the Fourier
domain `Vf * Yf` raises the incompatibility error instead of
producing a current.  The claimed role-promotion law fails at these
concrete inputs. -/
theorem c1_no_role_promotion_counterexample :
    (mulE ⟨ClsTag.clsVs, Sym.symv .s, {}⟩
          ⟨ClsTag.clsYs, Sym.const 2, {}⟩).toOption.map EVal.cls
      = some ClsTag.clsVs
    ∧ (mulE ⟨ClsTag.clsVs, Sym.symv .s, {}⟩
            ⟨ClsTag.clsYs, Sym.const 2, {}⟩).toOption.map EVal.cls
      ≠ some ClsTag.clsIs
    ∧ (divE ⟨ClsTag.clsVs, Sym.symv .s, {}⟩
            ⟨ClsTag.clsVs, Sym.const 3, {}⟩).toOption.map EVal.cls
      = some ClsTag.clsVs
    ∧ (divE ⟨ClsTag.clsVs, Sym.symv .s, {}⟩
            ⟨ClsTag.clsVs, Sym.const 3, {}⟩).toOption.map EVal.cls
      ≠ some ClsTag.clsHs
    ∧ (mulE ⟨ClsTag.clsVf, Sym.symv .f, { real := some true }⟩
            ⟨ClsTag.clsYf, Sym.const 2, { real := some true }⟩).toOption
      = none := by
  decide

/-! ## C3: voltage + current -/

/-- C3 counterexample: a phasor-domain voltage added to a
phasor-domain current of the same (default) angular frequency does
not raise; it returns a `Vphasor`-classed value, contradicting the
claim that the addition fails for every pair of domains. -/
theorem c3_phasor_addition_counterexample :
    (addE ⟨ClsTag.clsVphasor, Sym.const 3, { positive := some true }⟩
          ⟨ClsTag.clsIphasor, Sym.const 4, { positive := some true }⟩).toOption.map
        EVal.cls
      = some ClsTag.clsVphasor := by
  decide

/-! ## C4: assumption merging on addition -/

/-- C4 counterexample: an s-domain voltage carrying `causal=True`
added to an s-domain voltage with no assumptions yields a result that
is not causal — the claimed "causal if either operand is causal" rule
does not hold for addition (it exists only in `__compat_mul__`). -/
theorem c4_causal_not_propagated_counterexample :
    isCausalE ⟨ClsTag.clsVs, Sym.symv .s, { causal := some true }⟩ = true
    ∧ (addE ⟨ClsTag.clsVs, Sym.symv .s, { causal := some true }⟩
            ⟨ClsTag.clsVs, Sym.const 1, {}⟩).toOption.map isCausalE
      = some false := by
  decide

/-- C1 amended: the compatibility engine performs no role promotion.
For same-domain operands, multiplying a voltage-typed value by an
admittance-typed value yields a value of the left operand's
voltage class in the time, Laplace and angular-Fourier domains and
raises the incompatibility error in the Fourier domain; dividing a
voltage-typed value by a voltage-typed value yields the same voltage
class (never a transfer function) in all four domains. -/
theorem c1_amended_no_role_promotion (pv py : Sym)
    (hvt : pv.hasVar .t = false) (hvs : pv.hasVar .s = false)
    (hyt : py.hasVar .t = false) (hys : py.hasVar .s = false) :
    (mulE ⟨ClsTag.clsVt, pv, { real := some true }⟩
          ⟨ClsTag.clsYt, py, { real := some true }⟩).toOption.map EVal.cls
      = some ClsTag.clsVt
    ∧ (divE ⟨ClsTag.clsVt, pv, { real := some true }⟩
            ⟨ClsTag.clsVt, py, { real := some true }⟩).toOption.map EVal.cls
      = some ClsTag.clsVt
    ∧ (mulE ⟨ClsTag.clsVs, pv, {}⟩ ⟨ClsTag.clsYs, py, {}⟩).toOption.map EVal.cls
      = some ClsTag.clsVs
    ∧ (divE ⟨ClsTag.clsVs, pv, {}⟩ ⟨ClsTag.clsVs, py, {}⟩).toOption.map EVal.cls
      = some ClsTag.clsVs
    ∧ (mulE ⟨ClsTag.clsVomega, pv, { real := some true }⟩
            ⟨ClsTag.clsYomega, py, { real := some true }⟩).toOption.map EVal.cls
      = some ClsTag.clsVomega
    ∧ (divE ⟨ClsTag.clsVomega, pv, { real := some true }⟩
            ⟨ClsTag.clsVomega, py, { real := some true }⟩).toOption.map EVal.cls
      = some ClsTag.clsVomega
    ∧ (mulE ⟨ClsTag.clsVf, pv, { real := some true }⟩
            ⟨ClsTag.clsYf, py, { real := some true }⟩).toOption
      = none
    ∧ (divE ⟨ClsTag.clsVf, pv, { real := some true }⟩
            ⟨ClsTag.clsVf, py, { real := some true }⟩).toOption.map EVal.cls
      = some ClsTag.clsVf := by
  refine ⟨?_, ?_, ?_, ?_, ?_, ?_, ?_, ?_⟩ <;>
    simp [mulE, divE, compatMul, exprCompatMul, phasorCompatMul, convertVal,
      construct, exprInit, isCausalE, isDcE, isAcE, causalOnly, acOnly,
      Assumptions.empty, ClsTag.subB, ClsTag.superChain, ClsTag.superChainAux,
      ClsTag.parent, Sym.hasVar, hvt, hvs, hyt, hys, Except.toOption,
      Except.bind, Except.map, Except.pure, bind, pure]

/-- C1 amended witness. -/
theorem c1_amended_no_role_promotion_witness :
    (mulE ⟨ClsTag.clsVt, Sym.symv .f, { real := some true }⟩
          ⟨ClsTag.clsYt, Sym.const 2, { real := some true }⟩).toOption.map EVal.cls
      = some ClsTag.clsVt
    ∧ (mulE ⟨ClsTag.clsVf, Sym.symv .f, { real := some true }⟩
            ⟨ClsTag.clsYf, Sym.const 2, { real := some true }⟩).toOption
      = none := by
  have h := c1_amended_no_role_promotion (Sym.symv .f) (Sym.const 2)
    (by decide) (by decide) (by decide) (by decide)
  exact ⟨h.1, h.2.2.2.2.2.2.1⟩

/-- C3 amended: adding a voltage-typed value to a current-typed value
raises the incompatibility error in every domain pairing except the
phasor domain: a phasor voltage plus a phasor current of equal
angular frequency returns a value (see the counterexample). -/
theorem c3_amended_voltage_plus_current (vc ic : ClsTag) (pv pw : Sym)
    (av ai : Assumptions)
    (hv : vc ∈ [ClsTag.clsVconst, .clsVt, .clsVs, .clsVf, .clsVomega, .clsVn,
      .clsVphasor])
    (hi : ic ∈ [ClsTag.clsIconst, .clsIt, .clsIs, .clsIf, .clsIomega, .clsIn,
      .clsIphasor])
    (hne : ¬(vc = .clsVphasor ∧ ic = .clsIphasor)) :
    (addE ⟨vc, pv, av⟩ ⟨ic, pw, ai⟩).toOption = none := by
  fin_cases hv <;> fin_cases hi <;>
    simp_all [addE, compatAdd, exprCompatAdd, phasorCompatAdd, convertVal,
      construct, exprInit, Assumptions.empty, ClsTag.subB, ClsTag.superChain,
      ClsTag.superChainAux, ClsTag.parent, Except.toOption,
      Except.bind, Except.map, Except.pure, bind, pure]

/-- C3 amended witness: `Vt + It` fails. -/
theorem c3_amended_voltage_plus_current_witness :
    (addE ⟨ClsTag.clsVt, Sym.symv .t, { real := some true }⟩
          ⟨ClsTag.clsIt, Sym.const 1, { real := some true }⟩).toOption = none :=
  c3_amended_voltage_plus_current ClsTag.clsVt ClsTag.clsIt _ _ _ _
    (by decide) (by decide) (by decide)

/-- C4 amended: for additions and subtractions of two same-class
s-domain voltages, the result carries the operands' assumption
dictionary exactly when the two dictionaries are identical and is
cleared otherwise — one operand being causal does not make the result
causal; for time-domain operands the dc/ac/causal assumptions are
always cleared (whatever the operands carried). -/
theorem c4_amended_assumption_merge (pa pb : Sym) (aa ab : Assumptions)
    (hat : pa.hasVar .t = false) (hbt : pb.hasVar .t = false)
    (has : pa.hasVar .s = false) (hbs : pb.hasVar .s = false) :
    (addE ⟨ClsTag.clsVs, pa, aa⟩ ⟨ClsTag.clsVs, pb, ab⟩).toOption.map EVal.assum
      = some (if aa = ab then aa else Assumptions.empty)
    ∧ (subE ⟨ClsTag.clsVs, pa, aa⟩ ⟨ClsTag.clsVs, pb, ab⟩).toOption.map EVal.assum
      = some (if aa = ab then aa else Assumptions.empty)
    ∧ (addE ⟨ClsTag.clsVt, pa, aa⟩ ⟨ClsTag.clsVt, pb, ab⟩).toOption.map
        (fun r => (r.assum.dc, r.assum.ac, r.assum.causal))
      = some (none, none, none)
    ∧ (subE ⟨ClsTag.clsVt, pa, aa⟩ ⟨ClsTag.clsVt, pb, ab⟩).toOption.map
        (fun r => (r.assum.dc, r.assum.ac, r.assum.causal))
      = some (none, none, none) := by
  by_cases h : aa = ab <;>
    refine ⟨?_, ?_, ?_, ?_⟩ <;>
      simp [addE, subE, compatAdd, exprCompatAdd, phasorCompatAdd, convertVal,
        construct, exprInit, Assumptions.empty, ClsTag.subB, ClsTag.superChain,
        ClsTag.superChainAux, ClsTag.parent, Sym.hasVar, hat, hbt, has, hbs, h,
        Except.toOption, Except.bind, Except.map, Except.pure, bind, pure]

/-- C4 amended witness: identical dictionaries are carried, differing
dictionaries are cleared. -/
theorem c4_amended_assumption_merge_witness :
    (addE ⟨ClsTag.clsVs, Sym.symv .s, { causal := some true }⟩
          ⟨ClsTag.clsVs, Sym.const 1, { causal := some true }⟩).toOption.map
        EVal.assum
      = some (if ({ causal := some true } : Assumptions) = { causal := some true }
          then { causal := some true } else Assumptions.empty) :=
  (c4_amended_assumption_merge (Sym.const 2) (Sym.const 1)
    { causal := some true } { causal := some true }
    (by decide) (by decide) (by decide) (by decide)).1

/-! ## C7: the causal Fourier shortcut preserves the quantity role -/

/-- C7: for a causal s-domain value of any of the s-domain classes,
`fourier()` substitutes `s = j 2 pi f` into the payload (it does not
re-derive through the time domain) and wraps the result in the
Fourier-domain class carrying the same quantity role, as given by the
spec-side conjugate-class map `specFourierConjugate`. -/
theorem c7_causal_fourier_is_substitution (p : Sym) (a : Assumptions) (c : ClsTag)
    (hc : c ∈ [ClsTag.clsVs, .clsIs, .clsZs, .clsYs, .clsHs, .sexpr])
    (hcausal : isCausalE ⟨c, p, a⟩ = true)
    (ht : p.hasVar .t = false) :
    (sExprFourier ⟨c, p, a⟩).toOption.map (fun r => (r.cls, r.payload))
      = some (specFourierConjugate c, p.subst .s jw2pifSym) := by
  have hs : (p.subst .s jw2pifSym).hasVar .s = false :=
    subst_hasVar_self p jw2pifSym .s (by decide)
  have ht' : (p.subst .s jw2pifSym).hasVar .t = false :=
    subst_hasVar_other p jw2pifSym .s .t ht (by decide)
  fin_cases hc <;>
    simp [sExprFourier, hcausal, subs1, classMap, jw2pifVal, specFourierConjugate,
      construct, exprInit, ClsTag.subB, ClsTag.superChain, ClsTag.superChainAux,
      ClsTag.parent, hs, ht', Except.toOption]

/-- C7 witness: the causal s-domain voltage `Vs(s)` transforms to the
f-domain voltage with payload `j 2 pi f`. -/
theorem c7_causal_fourier_is_substitution_witness :
    (sExprFourier ⟨ClsTag.clsVs, Sym.symv .s, { causal := some true }⟩).toOption.map
        (fun r => (r.cls, r.payload))
      = some (specFourierConjugate ClsTag.clsVs, (Sym.symv .s).subst .s jw2pifSym) :=
  c7_causal_fourier_is_substitution (Sym.symv .s) { causal := some true }
    ClsTag.clsVs (by decide) (by decide) (by decide)

/-! ## C5: noise combines on a power basis -/

/-- C5: a superposition holding a noise component of magnitude `m1`
to which an independent noise component of magnitude `m2` is added
stores, under the key `'n'`, a value denoting
`sqrt(m1^2 + m2^2)` — not `m1 + m2`; a non-noise kind (here dc)
combines by direct addition of the payloads. -/
theorem c5_noise_power_basis (m1 m2 c1 c2 : ℚ)
    (h1 : 0 < m1) (h2 : 0 < m2) (hc2 : c2 ≠ 0) :
    (∃ w : EVal,
      (superAddV [] ⟨ClsTag.clsVn, Sym.const m1,
          { real := some true, positive := some true }⟩).bind
        (fun S => superAddV S ⟨ClsTag.clsVn, Sym.const m2,
          { real := some true, positive := some true }⟩)
        = .ok [(SKey.nK, w)]
      ∧ Sym.nval w.payload = Real.sqrt ((m1 : ℝ) ^ 2 + (m2 : ℝ) ^ 2)
      ∧ Sym.nval w.payload ≠ (m1 : ℝ) + (m2 : ℝ))
    ∧ superAddV [(SKey.dc, ⟨ClsTag.clsVconst, Sym.const c1,
          { real := some true, positive := some true }⟩)]
        ⟨ClsTag.clsVconst, Sym.const c2,
          { real := some true, positive := some true }⟩
      = .ok [(SKey.dc, ⟨ClsTag.clsVconst, Sym.add (Sym.const c1) (Sym.const c2),
          { real := some true, positive := some true }⟩)] := by
  have hm1 : ¬(Sym.const m1 = Sym.const 0) := by
    simp [Sym.const.injEq]; exact h1.ne'
  have hm2 : ¬(Sym.const m2 = Sym.const 0) := by
    simp [Sym.const.injEq]; exact h2.ne'
  have hcc : ¬(Sym.const c2 = Sym.const 0) := by
    simp [Sym.const.injEq]; exact hc2
  constructor
  · refine ⟨⟨ClsTag.clsVn,
      Sym.sqrtS (Sym.add
        (Sym.mul (Sym.sqrtS (Sym.mul (Sym.const m1) (Sym.const m1)))
          (Sym.sqrtS (Sym.mul (Sym.const m1) (Sym.const m1))))
        (Sym.mul (Sym.const m2) (Sym.const m2))),
      { real := some true, positive := some true }⟩, ?_, ?_, ?_⟩
    · simp [superAddV, kindOfV, noiseSquared, sqrtWrap, mulE, addE, compatMul,
        compatAdd, exprCompatMul, exprCompatAdd, phasorCompatMul, phasorCompatAdd,
        convertVal, construct, exprInit, Sym.conjO, Sym.simplifyO, lookupK,
        insertK, updateK, coerceV, typeMapV, isCausalE, isDcE, isAcE,
        Assumptions.empty, ClsTag.subB, ClsTag.superChain, ClsTag.superChainAux,
        ClsTag.parent, Sym.hasVar, hm1, hm2, Except.bind, Except.pure, bind, pure]
    · have hsq : Real.sqrt ((m1 : ℝ) * m1) * Real.sqrt ((m1 : ℝ) * m1)
          = (m1 : ℝ) * m1 :=
        Real.mul_self_sqrt (mul_self_nonneg _)
      simp [Sym.nval, hsq]
      ring_nf
    · intro heq
      have hx : (0 : ℝ) ≤ (m1 : ℝ) ^ 2 + (m2 : ℝ) ^ 2 := by positivity
      have hss := Real.sq_sqrt hx
      have hm1R : (0 : ℝ) < (m1 : ℝ) := by exact_mod_cast h1
      have hm2R : (0 : ℝ) < (m2 : ℝ) := by exact_mod_cast h2
      have hsq : Real.sqrt ((m1 : ℝ) * m1) * Real.sqrt ((m1 : ℝ) * m1)
          = (m1 : ℝ) * m1 :=
        Real.mul_self_sqrt (mul_self_nonneg _)
      have heval : Sym.nval (Sym.sqrtS (Sym.add
          (Sym.mul (Sym.sqrtS (Sym.mul (Sym.const m1) (Sym.const m1)))
            (Sym.sqrtS (Sym.mul (Sym.const m1) (Sym.const m1))))
          (Sym.mul (Sym.const m2) (Sym.const m2))))
          = Real.sqrt ((m1 : ℝ) ^ 2 + (m2 : ℝ) ^ 2) := by
        simp [Sym.nval, hsq]
        ring_nf
      rw [heval] at heq
      rw [heq] at hss
      nlinarith
  · simp [superAddV, kindOfV, noiseSquared, sqrtWrap, mulE, addE, compatMul,
      compatAdd, exprCompatMul, exprCompatAdd, phasorCompatMul, phasorCompatAdd,
      convertVal, construct, exprInit, Sym.conjO, Sym.simplifyO, lookupK,
      insertK, updateK, coerceV, typeMapV, isCausalE, isDcE, isAcE,
      Assumptions.empty, ClsTag.subB, ClsTag.superChain, ClsTag.superChainAux,
      ClsTag.parent, Sym.hasVar, hcc, Except.bind, Except.pure, bind, pure]

/-- C5 witness at `m1 = 3`, `m2 = 4`. -/
theorem c5_noise_power_basis_witness :
    ∃ w : EVal,
      (superAddV [] ⟨ClsTag.clsVn, Sym.const 3,
          { real := some true, positive := some true }⟩).bind
        (fun S => superAddV S ⟨ClsTag.clsVn, Sym.const 4,
          { real := some true, positive := some true }⟩)
        = .ok [(SKey.nK, w)]
      ∧ Sym.nval w.payload = Real.sqrt ((3 : ℝ) ^ 2 + (4 : ℝ) ^ 2)
      ∧ Sym.nval w.payload ≠ (3 : ℝ) + (4 : ℝ) := by
  have h := (c5_noise_power_basis 3 4 1 1 (by norm_num) (by norm_num)
    (by norm_num)).1
  obtain ⟨w, hw1, hw2, hw3⟩ := h
  exact ⟨w, hw1, by push_cast at hw2 ⊢; exact hw2, by push_cast at hw3 ⊢; exact hw3⟩

/-! ## C6: phasors merge per angular frequency -/

/-- C6: adding two phasor voltages of equal angular frequency to a
superposition produces a single entry keyed by that frequency whose
value is the (vector) sum of the two phasors; phasors of different
angular frequencies produce distinct independent keys, one per
frequency. -/
theorem c6_phasor_frequency_keys (p1 p2 w1 w2 : Sym)
    (h1 : p1 ≠ Sym.const 0) (h2 : p2 ≠ Sym.const 0) (hw : w1 ≠ w2) :
    (superAddV [] ⟨ClsTag.clsVphasor, p1,
        { positive := some true, omega := some w1 }⟩).bind
      (fun S => superAddV S ⟨ClsTag.clsVphasor, p2,
        { positive := some true, omega := some w1 }⟩)
      = .ok [(SKey.acFreq w1,
          ⟨ClsTag.clsVphasor, Sym.add p1 p2, { positive := some true }⟩)]
    ∧ (superAddV [] ⟨ClsTag.clsVphasor, p1,
        { positive := some true, omega := some w1 }⟩).bind
      (fun S => superAddV S ⟨ClsTag.clsVphasor, p2,
        { positive := some true, omega := some w2 }⟩)
      = .ok [(SKey.acFreq w1,
          ⟨ClsTag.clsVphasor, p1, { positive := some true, omega := some w1 }⟩),
        (SKey.acFreq w2,
          ⟨ClsTag.clsVphasor, p2, { positive := some true, omega := some w2 }⟩)] := by
  constructor <;>
    simp [superAddV, kindOfV, omegaOf, noiseSquared, sqrtWrap, mulE, addE,
      compatMul, compatAdd, exprCompatMul, exprCompatAdd, phasorCompatMul,
      phasorCompatAdd, convertVal, construct, exprInit, lookupK, insertK,
      updateK, coerceV, typeMapV, Assumptions.empty, ClsTag.subB,
      ClsTag.superChain, ClsTag.superChainAux, ClsTag.parent, Sym.hasVar,
      h1, h2, hw, Except.bind, Except.pure, bind, pure]

/-- C6 witness: phasors at frequencies 2 and 3. -/
theorem c6_phasor_frequency_keys_witness :
    (superAddV [] ⟨ClsTag.clsVphasor, Sym.const 1,
        { positive := some true, omega := some (Sym.const 2) }⟩).bind
      (fun S => superAddV S ⟨ClsTag.clsVphasor, Sym.const 5,
        { positive := some true, omega := some (Sym.const 2) }⟩)
      = .ok [(SKey.acFreq (Sym.const 2),
          ⟨ClsTag.clsVphasor, Sym.add (Sym.const 1) (Sym.const 5),
            { positive := some true }⟩)] :=
  (c6_phasor_frequency_keys (Sym.const 1) (Sym.const 5) (Sym.const 2)
    (Sym.const 3) (by decide) (by decide) (by decide)).1

/-! ## C2: decomposition/recomposition round trip -/

/-- C2: for a time-domain signal of the form
`dc + (a cos(w t) + b sin(w t)) + causal transient` (the rectangular
form of `dc + A cos(w t + phi) + transient`), building a superposition
from it — which splits it into a dc component, a phasor keyed by `w`,
and an s-domain residue — and then calling `time()` reconstructs a
signal equal to the original at every time instant. -/
theorem c2_superposition_time_roundtrip (c a b w k al : ℚ) (hw : w ≠ 0) (x : ℝ) :
    sigEval (timeT (decomposeT [] [TTerm.constT c, .sinu a b w, .trans k al])) x
      = sigEval [TTerm.constT c, .sinu a b w, .trans k al] x := by
  by_cases hc : c = 0 <;> by_cases ha : a = 0 <;> by_cases hb : b = 0 <;>
    simp [decomposeT, dcCoeff, isConstTerm, isACTerm, addT, lookupT, updateT,
      CompT.isZero, keyOfT, combineT, toPhasor, laplaceT, isCausalSig, timeT,
      CompT.timeOf, sigEval, TTerm.teval, hw, hc, ha, hb]

/-- C2 witness at `1 + (1 cos(3 t) + 2 sin(3 t)) + 4 e^(-5 t) u(t)`,
evaluated at `t = 0`. -/
theorem c2_superposition_time_roundtrip_witness :
    sigEval (timeT (decomposeT [] [TTerm.constT 1, .sinu 1 2 3, .trans 4 5])) 0
      = sigEval [TTerm.constT 1, .sinu 1 2 3, .trans 4 5] 0 :=
  c2_superposition_time_roundtrip 1 1 2 3 4 5 (by norm_num) 0

end Lcapy
